import Mathlib

/-!
Shallow embedding of the worker-supervision (cluster) subsystem of the
CV microservice repository.  Two supervisor variants exist in the source:

* variant A (the file embedded in `src/unnamed/part_000`, lines 96-163):
  forks 1 worker in development and 2 in production, restarts a dead
  worker only when not in development, and installs a SIGTERM handler
  that signals every live worker and schedules a 10000 ms force-kill
  timer before calling process.exit(0);
* variant B (`src/unnamed/part_001`, cluster.js): forks one worker per
  CPU, restarts unconditionally on every exit, and installs no signal
  handler at all.

The supervisor of each variant is modelled as a deterministic machine
over timed runtime events (worker exit, SIGTERM delivery, drain-timer
fire).  Console logging has no effect on control flow in the source, so
log calls are omitted from the action traces; they reappear in the
exception-level model of the exit-handler body (`onExitBodyA` and
`onExitBodyB`), where each runtime call is allowed to throw.
-/

/-- Signals the primary sends to worker processes: the graceful SIGTERM of
part_000 line 140 and the forceful SIGKILL of part_000 line 146. -/
inductive Sig
  | sigterm
  | sigkill
  deriving DecidableEq, Repr

/-- Observable side effects of the primary process: forking a worker,
sending a signal to a worker pid, and process.exit with a code. -/
inductive Act
  | forkW (pid : Nat)
  | killW (pid : Nat) (sg : Sig)
  | procExit (code : Nat)
  deriving DecidableEq, Repr

/-- Runtime events delivered to the primary of variant A: a worker exit
(with the exit code the handler receives, used only for logging in the
source), delivery of SIGTERM, and the firing of a scheduled drain timer. -/
inductive Ev
  | workerExit (pid : Nat) (code : Int)
  | sigterm
  | timerFire
  deriving DecidableEq, Repr

/-- The lifecycle phase named by the spec.  The source has no phase
variable; the phase is the derived observation defined by `StA.phase`. -/
inductive Phase
  | running
  | draining
  | stopped
  deriving DecidableEq, Repr

/-- State of the variant A primary: the live worker table
(cluster.workers), the next fresh pid, the fire times of the pending
setTimeout force-kill timers (part_000 line 143), a ghost flag recording
that at least one SIGTERM was handled, and the process.exit code once
the primary has exited.  Only `workers`, `timers` and `exitedWith`
influence behaviour; `sigtermSeen` is a pure observation. -/
structure StA where
  workers : List Nat
  nextPid : Nat
  timers : List Nat
  sigtermSeen : Bool
  exitedWith : Option Nat
  deriving DecidableEq, Repr

/-- Derived phase: stopped once process.exit ran, draining once a
termination signal has been handled, running before that. -/
def StA.phase (s : StA) : Phase :=
  if s.exitedWith.isSome then Phase.stopped
  else if s.sigtermSeen then Phase.draining
  else Phase.running

/-- The drain window hard-coded at part_000 line 149. -/
def drainTimeoutMs : Nat := 10000

/-- Worker-count policy of variant A (part_000 line 115):
1 worker in development, 2 in production. -/
def numWorkersA (isDevelopment : Bool) : Nat :=
  if isDevelopment then 1 else 2

/-- The startup fork loop (part_000 lines 119-122): fork `n` workers,
recording one handle per fork.  Forked pids are allocated fresh. -/
def forkN (s : StA) : Nat → StA × List (Nat × Act)
  | 0 => (s, [])
  | n + 1 =>
      let w := s.nextPid
      let s1 : StA := { s with workers := s.workers ++ [w], nextPid := w + 1 }
      let r := forkN s1 n
      (r.1, (0, Act.forkW w) :: r.2)

/-- Initial primary state, before any fork. -/
def initA : StA :=
  { workers := [], nextPid := 0, timers := [], sigtermSeen := false,
    exitedWith := none }

/-- Variant A startup: fork `numWorkersA` workers from the initial state. -/
def startA (isDevelopment : Bool) : StA × List (Nat × Act) :=
  forkN initA (numWorkersA isDevelopment)

/-- One event-handling step of the variant A primary, from the source:

* after process.exit nothing runs, so an exited state absorbs all events;
* a worker exit (the runtime removes the dead worker from
  cluster.workers before the handler runs) triggers the handler of
  part_000 lines 125-133: it logs, and only when not in development it
  forks one replacement — the handler never consults any shutdown state;
* SIGTERM triggers the handler of lines 136-150: it sends SIGTERM to
  every live worker and schedules a force-kill timer at now plus
  `drainTimeoutMs`; the handler has no re-entry guard;
* a scheduled timer firing runs the setTimeout callback of lines
  143-149: SIGKILL to every worker still live, then process.exit(0).
  A fire time not matching a pending timer is ignored. -/
def stepA (isDevelopment : Bool) (s : StA) (te : Nat × Ev) :
    StA × List (Nat × Act) :=
  if s.exitedWith.isSome then (s, [])
  else
    match te with
    | (t, Ev.workerExit pid _code) =>
        if pid ∈ s.workers then
          let s1 : StA := { s with workers := s.workers.erase pid }
          if isDevelopment then (s1, [])
          else
            let np := s1.nextPid
            ({ s1 with workers := s1.workers ++ [np], nextPid := np + 1 },
             [(t, Act.forkW np)])
        else (s, [])
    | (t, Ev.sigterm) =>
        ({ s with sigtermSeen := true,
                  timers := s.timers ++ [t + drainTimeoutMs] },
         s.workers.map (fun p => (t, Act.killW p Sig.sigterm)))
    | (t, Ev.timerFire) =>
        if t ∈ s.timers then
          ({ s with timers := s.timers.erase t, exitedWith := some 0 },
           (s.workers.map (fun p => (t, Act.killW p Sig.sigkill)))
             ++ [(t, Act.procExit 0)])
        else (s, [])

/-- Run the variant A primary over a list of timed events, collecting the
emitted actions in order. -/
def runA (isDevelopment : Bool) : StA → List (Nat × Ev) → StA × List (Nat × Act)
  | s, [] => (s, [])
  | s, e :: es =>
      let r1 := stepA isDevelopment s e
      let r2 := runA isDevelopment r1.1 es
      (r2.1, r1.2 ++ r2.2)

/-- State of the variant B primary (part_001): only the live worker table
and the next fresh pid — variant B has no timers and never exits. -/
structure StB where
  workers : List Nat
  nextPid : Nat
  deriving DecidableEq, Repr

/-- Variant B startup fork loop (part_001 lines 15-17): one worker per
CPU. -/
def forkNB (s : StB) : Nat → StB × List (Nat × Act)
  | 0 => (s, [])
  | n + 1 =>
      let w := s.nextPid
      let s1 : StB := { s with workers := s.workers ++ [w], nextPid := w + 1 }
      let r := forkNB s1 n
      (r.1, (0, Act.forkW w) :: r.2)

/-- Initial variant B primary state. -/
def initB : StB :=
  { workers := [], nextPid := 0 }

/-- Variant B startup with the machine CPU count. -/
def startB (numCPUs : Nat) : StB × List (Nat × Act) :=
  forkNB initB numCPUs

/-- Variant B exit handling (part_001 lines 20-23): on every worker exit
the handler logs and forks one replacement, unconditionally.  The only
events the variant B primary reacts to are worker exits — part_001
installs no signal handler — so an event is a timed dead-worker pid. -/
def stepB (s : StB) (te : Nat × Nat) : StB × List (Nat × Act) :=
  if te.2 ∈ s.workers then
    let np := s.nextPid
    ({ workers := (s.workers.erase te.2) ++ [np], nextPid := np + 1 },
     [(te.1, Act.forkW np)])
  else (s, [])

/-- Run the variant B primary over a list of timed worker-exit events. -/
def runB : StB → List (Nat × Nat) → StB × List (Nat × Act)
  | s, [] => (s, [])
  | s, e :: es =>
      let r1 := stepB s e
      let r2 := runB r1.1 es
      (r2.1, r1.2 ++ r2.2)

/-- Process signal names the variant A primary registers a handler for:
exactly SIGTERM (part_000 line 136). -/
def signalHandlersA : List String := ["SIGTERM"]

/-- Process signal names the variant B primary registers a handler for:
part_001 registers none. -/
def signalHandlersB : List String := []

/-- The module path each forked worker loads (part_000 line 157 and
part_001 line 26). -/
def workerEntryPoint : String := "./server.js"

/-- Observable steps of a worker process right after fork. -/
inductive WAct
  | importServer (path : String)
  | logStarted
  | logError
  | wexit (code : Nat)
  deriving DecidableEq, Repr

/-- The variant A worker branch (part_000 lines 152-163): dynamically
load the server module; on success log; on failure log the error and
process.exit(1). -/
def workerBranchA (importOk : Bool) : List WAct :=
  WAct.importServer workerEntryPoint ::
    (if importOk then [WAct.logStarted] else [WAct.logError, WAct.wexit 1])

/-- The variant B worker branch (part_001 lines 24-33): import the
server; on success log; on failure only log — the worker keeps running. -/
def workerBranchB (importOk : Bool) : List WAct :=
  WAct.importServer workerEntryPoint ::
    (if importOk then [WAct.logStarted] else [WAct.logError])

/-- The variant A exit-handler body (part_000 lines 125-133) at the level
of exception flow.  Each runtime call the body makes — the death log, and
in production the restart log, the fork, and the started log — is allowed
to throw (its Boolean argument is false).  The body contains no
try/catch, so the first throwing call aborts the handler and the
exception escapes the handler boundary. -/
def onExitBodyA (isDevelopment log1 log2 fork1 log3 : Bool) :
    Except Unit Unit :=
  if log1 = false then Except.error ()
  else if isDevelopment then Except.ok ()
  else if log2 = false then Except.error ()
  else if fork1 = false then Except.error ()
  else if log3 = false then Except.error ()
  else Except.ok ()

/-- The variant B exit-handler body (part_001 lines 20-23): a log call
followed by a fork, again with no try/catch around either. -/
def onExitBodyB (log1 fork1 : Bool) : Except Unit Unit :=
  if log1 = false then Except.error ()
  else if fork1 = false then Except.error ()
  else Except.ok ()

/-- The startup fork loop of part_000 lines 119-122 with the underlying
fork primitive allowed to fail: `forkOk i` says whether the i-th fork
call succeeds.  The loop body has no try/catch and the primary installs
no uncaughtException handler, so a failing fork surfaces as an uncaught
exception escaping the top-level primary code; the runtime default for a
fatal uncaught exception terminates the process with exit code 1, which
the error branch records. -/
def forkLoopFallible (forkOk : Nat → Bool) : Nat → Nat → Except Nat (List Nat)
  | _, 0 => Except.ok []
  | i, n + 1 =>
      if forkOk i then
        match forkLoopFallible forkOk (i + 1) n with
        | Except.ok ps => Except.ok (i :: ps)
        | Except.error c => Except.error c
      else Except.error 1

/-- Number of fork calls the startup loop actually makes: the loop stops
at the first failing fork (the exception aborts the loop), so a failure
is never retried. -/
def forkAttempts (forkOk : Nat → Bool) : Nat → Nat → Nat
  | _, 0 => 0
  | i, n + 1 => if forkOk i then 1 + forkAttempts forkOk (i + 1) n else 1

/-- Recognizers over primary actions, used to count occurrences in
traces. -/
def isForkA : Act → Bool
  | Act.forkW _ => true
  | _ => false

def isTermKillTo (p : Nat) : Act → Bool
  | Act.killW q Sig.sigterm => q == p
  | _ => false

def isSigkillTo (p : Nat) : Act → Bool
  | Act.killW q Sig.sigkill => q == p
  | _ => false

def isAnySigkill : Act → Bool
  | Act.killW _ Sig.sigkill => true
  | _ => false

def isAnyKill : Act → Bool
  | Act.killW _ _ => true
  | _ => false

def isProcExit : Act → Bool
  | Act.procExit _ => true
  | _ => false

/-- Count the actions of a trace satisfying a recognizer. -/
def countAct (f : Act → Bool) (tr : List (Nat × Act)) : Nat :=
  tr.countP (fun a => f a.2)

def isSigtermEv (e : Nat × Ev) : Bool :=
  match e.2 with
  | Ev.sigterm => true
  | _ => false

def isWorkerExitEv (e : Nat × Ev) : Bool :=
  match e.2 with
  | Ev.workerExit _ _ => true
  | _ => false

def isWExit : WAct → Bool
  | WAct.wexit _ => true
  | _ => false

/-! ### Basic counting lemmas -/

lemma countAct_append (f : Act → Bool) (t1 t2 : List (Nat × Act)) :
    countAct f (t1 ++ t2) = countAct f t1 + countAct f t2 := by
  simp [countAct, List.countP_append]

lemma countAct_map (f : Act → Bool) (t : Nat) (g : Nat → Act) (l : List Nat) :
    countAct f (l.map fun q => (t, g q)) = l.countP (fun q => f (g q)) := by
  induction l with
  | nil => rfl
  | cons a l ih => simp [countAct, List.countP_cons] at ih ⊢; omega

lemma countP_beq_of_nodup_mem (p : Nat) (l : List Nat)
    (hnd : l.Nodup) (hp : p ∈ l) :
    l.countP (fun q => q == p) = 1 := by
  induction l with
  | nil => cases hp
  | cons a l ih =>
      rcases List.nodup_cons.mp hnd with ⟨ha, hnd2⟩
      rcases List.mem_cons.mp hp with h | h
      · subst h
        have hz : l.countP (fun q => q == p) = 0 := by
          apply List.countP_eq_zero.mpr
          intro q hq
          simp only [beq_iff_eq]
          intro hqp
          exact ha (hqp ▸ hq)
        simp [List.countP_cons, hz]
      · have hne : (a == p) = false := by
          simp only [beq_eq_false_iff_ne]
          intro hap
          exact ha (hap ▸ h)
        simp [List.countP_cons, hne, ih hnd2 h]

lemma countP_beq_of_not_mem (p : Nat) (l : List Nat) (hp : p ∉ l) :
    l.countP (fun q => q == p) = 0 := by
  apply List.countP_eq_zero.mpr
  intro q hq
  simp only [beq_iff_eq]
  intro hqp
  exact hp (hqp ▸ hq)

/-! ### Structural lemmas about runA -/

lemma runA_append (isDev : Bool) (s : StA) (l1 l2 : List (Nat × Ev)) :
    runA isDev s (l1 ++ l2) =
      ((runA isDev (runA isDev s l1).1 l2).1,
       (runA isDev s l1).2 ++ (runA isDev (runA isDev s l1).1 l2).2) := by
  induction l1 generalizing s with
  | nil => simp [runA]
  | cons e es ih => simp [runA, ih]

lemma stepA_exited (isDev : Bool) (s : StA) (e : Nat × Ev)
    (h : s.exitedWith.isSome) : stepA isDev s e = (s, []) := by
  simp [stepA, h]

lemma runA_exited (isDev : Bool) (s : StA) (evs : List (Nat × Ev))
    (h : s.exitedWith.isSome) : runA isDev s evs = (s, []) := by
  induction evs with
  | nil => rfl
  | cons e es ih => simp [runA, stepA_exited isDev s e h, ih]

/-! ### Invariants of the variant A machine -/

/-- Well-formedness of a primary state: the worker table has no duplicate
pids and every recorded pid is below the next fresh pid. -/
def WfA (s : StA) : Prop :=
  s.workers.Nodup ∧ ∀ q ∈ s.workers, q < s.nextPid

/-- Characterization of a live-worker exit handled in development:
remove the handle, fork nothing. -/
lemma stepA_workerExit_dev (s : StA) (t pid : Nat) (code : Int)
    (hex : s.exitedWith = none) (hmem : pid ∈ s.workers) :
    stepA true s (t, Ev.workerExit pid code) =
      ({ s with workers := s.workers.erase pid }, []) := by
  simp [stepA, hex, hmem]

/-- Characterization of a live-worker exit handled in production:
remove the handle and fork exactly one replacement with a fresh pid —
regardless of any shutdown state. -/
lemma stepA_workerExit_prod (s : StA) (t pid : Nat) (code : Int)
    (hex : s.exitedWith = none) (hmem : pid ∈ s.workers) :
    stepA false s (t, Ev.workerExit pid code) =
      ({ s with workers := s.workers.erase pid ++ [s.nextPid],
                nextPid := s.nextPid + 1 },
       [(t, Act.forkW s.nextPid)]) := by
  simp [stepA, hex, hmem]

/-- An exit report for a pid not in the worker table is a no-op. -/
lemma stepA_workerExit_stale (isDev : Bool) (s : StA) (t pid : Nat)
    (code : Int) (hex : s.exitedWith = none) (hmem : pid ∉ s.workers) :
    stepA isDev s (t, Ev.workerExit pid code) = (s, []) := by
  simp [stepA, hex, hmem]

/-- Characterization of SIGTERM handling while the primary is alive:
one graceful signal per live worker, one more pending force-kill timer. -/
lemma stepA_sigterm_eq (isDev : Bool) (s : StA) (t : Nat)
    (hex : s.exitedWith = none) :
    stepA isDev s (t, Ev.sigterm) =
      ({ s with sigtermSeen := true,
                timers := s.timers ++ [t + drainTimeoutMs] },
       s.workers.map (fun p => (t, Act.killW p Sig.sigterm))) := by
  simp [stepA, hex]

/-- Characterization of a scheduled force-kill timer firing: one SIGKILL
per still-live worker, then process.exit(0). -/
lemma stepA_fire (isDev : Bool) (s : StA) (t : Nat)
    (hex : s.exitedWith = none) (htm : t ∈ s.timers) :
    stepA isDev s (t, Ev.timerFire) =
      ({ s with timers := s.timers.erase t, exitedWith := some 0 },
       (s.workers.map (fun p => (t, Act.killW p Sig.sigkill)))
         ++ [(t, Act.procExit 0)]) := by
  simp [stepA, hex, htm]

/-- A timer fire with no matching pending timer is a no-op. -/
lemma stepA_fire_stale (isDev : Bool) (s : StA) (t : Nat)
    (hex : s.exitedWith = none) (htm : t ∉ s.timers) :
    stepA isDev s (t, Ev.timerFire) = (s, []) := by
  simp [stepA, hex, htm]

lemma wfA_stepA (isDev : Bool) (s : StA) (e : Nat × Ev) (h : WfA s) :
    WfA (stepA isDev s e).1 := by
  obtain ⟨hnd, hlt⟩ := h
  rcases hex : s.exitedWith with _ | c
  · obtain ⟨t, ev⟩ := e
    cases ev with
    | workerExit pid code =>
        by_cases hmem : pid ∈ s.workers
        · cases isDev with
          | true =>
              rw [stepA_workerExit_dev s t pid code hex hmem]
              exact ⟨hnd.erase pid,
                fun q hq => hlt q (List.mem_of_mem_erase hq)⟩
          | false =>
              rw [stepA_workerExit_prod s t pid code hex hmem]
              refine ⟨?_, ?_⟩
              · rw [List.nodup_append]
                refine ⟨hnd.erase pid, List.nodup_singleton _, ?_⟩
                intro q hq hq2
                have hq3 : q = s.nextPid := by simpa using hq2
                have := hlt q (List.mem_of_mem_erase hq)
                omega
              · intro q hq
                show q < s.nextPid + 1
                rcases List.mem_append.mp hq with hq | hq
                · have := hlt q (List.mem_of_mem_erase hq)
                  omega
                · have hq3 : q = s.nextPid := by simpa using hq
                  omega
        · rw [stepA_workerExit_stale isDev s t pid code hex hmem]
          exact ⟨hnd, hlt⟩
    | sigterm =>
        rw [stepA_sigterm_eq isDev s t hex]
        exact ⟨hnd, hlt⟩
    | timerFire =>
        by_cases htm : t ∈ s.timers
        · rw [stepA_fire isDev s t hex htm]
          exact ⟨hnd, hlt⟩
        · rw [stepA_fire_stale isDev s t hex htm]
          exact ⟨hnd, hlt⟩
  · rw [stepA_exited isDev s e (by simp [hex])]
    exact ⟨hnd, hlt⟩

lemma wfA_runA (isDev : Bool) (s : StA) (evs : List (Nat × Ev)) (h : WfA s) :
    WfA (runA isDev s evs).1 := by
  induction evs generalizing s with
  | nil => simpa [runA]
  | cons e es ih => simpa [runA] using ih _ (wfA_stepA isDev s e h)

/-- A step whose resulting state has not exited emits no SIGKILL: the only
source line sending SIGKILL is the setTimeout callback, which ends in
process.exit(0). -/
lemma stepA_sigkill_free (isDev : Bool) (s : StA) (e : Nat × Ev)
    (h : (stepA isDev s e).1.exitedWith = none) :
    countAct isAnySigkill (stepA isDev s e).2 = 0 := by
  by_cases hex : s.exitedWith.isSome
  · simp [stepA, hex, countAct]
  · obtain ⟨t, ev⟩ := e
    cases ev with
    | workerExit pid code =>
        by_cases hmem : pid ∈ s.workers
        · by_cases hdev : isDev <;>
            simp [stepA, hex, hmem, hdev, countAct, isAnySigkill]
        · simp [stepA, hex, hmem, countAct]
    | sigterm =>
        simp [stepA, hex, countAct, countAct_map, isAnySigkill,
          List.countP_eq_zero]
    | timerFire =>
        by_cases htm : t ∈ s.timers
        · exfalso
          simp [stepA, hex, htm] at h
        · simp [stepA, hex, htm, countAct]

/-- A run whose final state has not exited emitted no SIGKILL anywhere:
once the force-kill sweep runs, the primary is exited and stays exited. -/
lemma runA_sigkill_free (isDev : Bool) (s : StA) (evs : List (Nat × Ev))
    (h : (runA isDev s evs).1.exitedWith = none) :
    countAct isAnySigkill (runA isDev s evs).2 = 0 := by
  induction evs generalizing s with
  | nil => simp [runA, countAct]
  | cons e es ih =>
      rw [runA] at h ⊢
      rcases hst : (stepA isDev s e).1.exitedWith with _ | c
      · have h2 : (runA isDev (stepA isDev s e).1 es).1.exitedWith = none := by
          simpa using h
        rw [countAct_append, stepA_sigkill_free isDev s e hst, ih _ h2]
      · exfalso
        have habs := runA_exited isDev (stepA isDev s e).1 es (by simp [hst])
        simp [habs, hst] at h

/-! ### Startup loop lemmas -/

lemma forkN_spec (n : Nat) : ∀ s : StA,
    (forkN s n).1.workers.length = s.workers.length + n ∧
    (forkN s n).1.timers = s.timers ∧
    (forkN s n).1.sigtermSeen = s.sigtermSeen ∧
    (forkN s n).1.exitedWith = s.exitedWith ∧
    (forkN s n).1.nextPid = s.nextPid + n ∧
    countAct isForkA (forkN s n).2 = n := by
  induction n with
  | zero => intro s; simp [forkN, countAct]
  | succ n ih =>
      intro s
      obtain ⟨h1, h2, h3, h4, h5, h6⟩ :=
        ih { s with workers := s.workers ++ [s.nextPid],
                    nextPid := s.nextPid + 1 }
      have heq : forkN s (n + 1) =
          ((forkN { s with workers := s.workers ++ [s.nextPid],
                           nextPid := s.nextPid + 1 } n).1,
           (0, Act.forkW s.nextPid) ::
             (forkN { s with workers := s.workers ++ [s.nextPid],
                             nextPid := s.nextPid + 1 } n).2) := rfl
      rw [heq]
      refine ⟨?_, h2, h3, h4, ?_, ?_⟩
      · rw [h1]
        simp only [List.length_append, List.length_singleton]
        omega
      · rw [h5]
        show s.nextPid + 1 + n = s.nextPid + (n + 1)
        omega
      · show List.countP (fun a => isForkA a.2)
            ((0, Act.forkW s.nextPid) ::
              (forkN { s with workers := s.workers ++ [s.nextPid],
                              nextPid := s.nextPid + 1 } n).2) = n + 1
        rw [List.countP_cons]
        simp only [countAct] at h6
        rw [h6]
        simp [isForkA]

lemma forkN_wf (n : Nat) : ∀ s : StA, WfA s → WfA (forkN s n).1 := by
  induction n with
  | zero => intro s h; simpa [forkN]
  | succ n ih =>
      intro s ⟨hnd, hlt⟩
      apply ih
      refine ⟨?_, ?_⟩
      · rw [List.nodup_append]
        refine ⟨hnd, List.nodup_singleton _, ?_⟩
        intro q hq hq2
        have hq3 : q = s.nextPid := by simpa using hq2
        have := hlt q hq
        omega
      · intro q hq
        show q < s.nextPid + 1
        rcases List.mem_append.mp hq with hq | hq
        · have := hlt q hq
          omega
        · have hq3 : q = s.nextPid := by simpa using hq
          omega

lemma forkNB_spec (n : Nat) : ∀ s : StB,
    (forkNB s n).1.workers.length = s.workers.length + n ∧
    countAct isForkA (forkNB s n).2 = n := by
  induction n with
  | zero => intro s; simp [forkNB, countAct]
  | succ n ih =>
      intro s
      obtain ⟨h1, h2⟩ :=
        ih { s with workers := s.workers ++ [s.nextPid],
                    nextPid := s.nextPid + 1 }
      have heq : forkNB s (n + 1) =
          ((forkNB { s with workers := s.workers ++ [s.nextPid],
                            nextPid := s.nextPid + 1 } n).1,
           (0, Act.forkW s.nextPid) ::
             (forkNB { s with workers := s.workers ++ [s.nextPid],
                              nextPid := s.nextPid + 1 } n).2) := rfl
      rw [heq]
      refine ⟨?_, ?_⟩
      · rw [h1]
        simp only [List.length_append, List.length_singleton]
        omega
      · show List.countP (fun a => isForkA a.2)
            ((0, Act.forkW s.nextPid) ::
              (forkNB { s with workers := s.workers ++ [s.nextPid],
                               nextPid := s.nextPid + 1 } n).2) = n + 1
        rw [List.countP_cons]
        simp only [countAct] at h2
        rw [h2]
        simp [isForkA]

/-! ### Runs made only of worker exits -/

lemma runA_workerExits (isDev : Bool) (evs : List (Nat × Ev)) :
    ∀ s : StA, (∀ e ∈ evs, isWorkerExitEv e = true) →
    (runA isDev s evs).1.timers = s.timers ∧
    (runA isDev s evs).1.sigtermSeen = s.sigtermSeen ∧
    (runA isDev s evs).1.exitedWith = s.exitedWith ∧
    countAct isAnyKill (runA isDev s evs).2 = 0 := by
  induction evs with
  | nil => intro s _; simp [runA, countAct]
  | cons e es ih =>
      intro s hall
      have he : isWorkerExitEv e = true := hall e (List.mem_cons_self e es)
      have hes : ∀ x ∈ es, isWorkerExitEv x = true :=
        fun x hx => hall x (List.mem_cons_of_mem e hx)
      obtain ⟨t, ev⟩ := e
      cases ev with
      | workerExit pid code =>
          by_cases hexs : s.exitedWith.isSome
          · rw [runA_exited isDev s ((t, Ev.workerExit pid code) :: es) hexs]
            exact ⟨rfl, rfl, rfl, by simp [countAct]⟩
          · have hex : s.exitedWith = none := by
              cases h : s.exitedWith with
              | none => rfl
              | some c => rw [h] at hexs; simp at hexs
            by_cases hmem : pid ∈ s.workers
            · cases isDev with
              | true =>
                  obtain ⟨g1, g2, g3, g4⟩ :=
                    ih { s with workers := s.workers.erase pid } hes
                  rw [runA, stepA_workerExit_dev s t pid code hex hmem]
                  exact ⟨g1, g2, g3, by simpa [countAct] using g4⟩
              | false =>
                  obtain ⟨g1, g2, g3, g4⟩ :=
                    ih { s with
                          workers := s.workers.erase pid ++ [s.nextPid],
                          nextPid := s.nextPid + 1 } hes
                  rw [runA, stepA_workerExit_prod s t pid code hex hmem]
                  refine ⟨g1, g2, g3, ?_⟩
                  show countAct isAnyKill ([(t, Act.forkW s.nextPid)] ++ _) = 0
                  rw [countAct_append]
                  simpa [countAct, List.countP_cons, isAnyKill] using g4
            · obtain ⟨g1, g2, g3, g4⟩ := ih s hes
              rw [runA, stepA_workerExit_stale isDev s t pid code hex hmem]
              exact ⟨g1, g2, g3, by simpa [countAct] using g4⟩
      | sigterm => simp [isWorkerExitEv] at he
      | timerFire => simp [isWorkerExitEv] at he

/-! ### Runs with no termination signal never reach process.exit -/

lemma runA_no_sigterm (isDev : Bool) (evs : List (Nat × Ev)) :
    ∀ s : StA, s.timers = [] → s.exitedWith = none →
    (∀ e ∈ evs, isSigtermEv e = false) →
    (runA isDev s evs).1.timers = [] ∧
    (runA isDev s evs).1.exitedWith = none := by
  induction evs with
  | nil => intro s h1 h2 _; simp [runA, h1, h2]
  | cons e es ih =>
      intro s h1 h2 hall
      have he : isSigtermEv e = false := hall e (List.mem_cons_self e es)
      have hes : ∀ x ∈ es, isSigtermEv x = false :=
        fun x hx => hall x (List.mem_cons_of_mem e hx)
      obtain ⟨t, ev⟩ := e
      cases ev with
      | workerExit pid code =>
          by_cases hmem : pid ∈ s.workers
          · cases isDev with
            | true =>
                rw [runA, stepA_workerExit_dev s t pid code h2 hmem]
                exact ih _ h1 h2 hes
            | false =>
                rw [runA, stepA_workerExit_prod s t pid code h2 hmem]
                exact ih _ h1 h2 hes
          · rw [runA, stepA_workerExit_stale isDev s t pid code h2 hmem]
            exact ih _ h1 h2 hes
      | sigterm => simp [isSigtermEv] at he
      | timerFire =>
          have htm : t ∉ s.timers := by simp [h1]
          rw [runA, stepA_fire_stale isDev s t h2 htm]
          exact ih _ h1 h2 hes

/-! ### The only exit code the primary ever uses is 0 -/

lemma runA_exit_zero (isDev : Bool) (evs : List (Nat × Ev)) :
    ∀ s : StA, (s.exitedWith = none ∨ s.exitedWith = some 0) →
    (runA isDev s evs).1.exitedWith = none ∨
    (runA isDev s evs).1.exitedWith = some 0 := by
  induction evs with
  | nil => intro s h; simpa [runA]
  | cons e es ih =>
      intro s h
      rw [runA]
      apply ih
      rcases h with h | h
      · obtain ⟨t, ev⟩ := e
        cases ev with
        | workerExit pid code =>
            by_cases hmem : pid ∈ s.workers
            · cases isDev with
              | true => rw [stepA_workerExit_dev s t pid code h hmem]; left; exact h
              | false => rw [stepA_workerExit_prod s t pid code h hmem]; left; exact h
            · rw [stepA_workerExit_stale isDev s t pid code h hmem]; left; exact h
        | sigterm => rw [stepA_sigterm_eq isDev s t h]; left; exact h
        | timerFire =>
            by_cases htm : t ∈ s.timers
            · rw [stepA_fire isDev s t h htm]; right; rfl
            · rw [stepA_fire_stale isDev s t h htm]; left; exact h
      · rw [stepA_exited isDev s e (by simp [h])]
        right; exact h

/-! ### Remaining helpers -/

lemma countAct_le (f g : Act → Bool) (h : ∀ a, f a = true → g a = true)
    (tr : List (Nat × Act)) : countAct f tr ≤ countAct g tr := by
  apply List.countP_mono_left
  intro a _ hfa
  exact h a.2 hfa

lemma runB_no_kill (exits : List (Nat × Nat)) :
    ∀ sB : StB, countAct isAnyKill (runB sB exits).2 = 0 := by
  induction exits with
  | nil => intro sB; simp [runB, countAct]
  | cons e es ih =>
      intro sB
      rw [runB, countAct_append]
      have hstep : countAct isAnyKill (stepB sB e).2 = 0 := by
        by_cases hmem : e.2 ∈ sB.workers <;>
          simp [stepB, hmem, countAct, List.countP_cons, isAnyKill]
      rw [hstep, ih]

lemma forkLoop_fail (forkOk : Nat → Bool) :
    ∀ (n a i : Nat), a ≤ i → i < a + n → forkOk i = false →
    (∀ j, a ≤ j → j < i → forkOk j = true) →
    forkLoopFallible forkOk a n = Except.error 1 ∧
    forkAttempts forkOk a n = i - a + 1 := by
  intro n
  induction n with
  | zero => intro a i h1 h2 _ _; omega
  | succ n ih =>
      intro a i h1 h2 h3 h4
      by_cases hia : i = a
      · subst hia
        constructor
        · simp [forkLoopFallible, h3]
        · simp [forkAttempts, h3]
      · have hlt : a < i := by omega
        have ha : forkOk a = true := h4 a (Nat.le_refl a) hlt
        obtain ⟨e1, e2⟩ := ih (a + 1) i (by omega) (by omega) h3
          (fun j hj1 hj2 => h4 j (by omega) hj2)
        constructor
        · simp [forkLoopFallible, ha, e1]
        · simp [forkAttempts, ha, e2]
          omega

/-! ### Claim theorems -/

/-- Claim C5: on startup the supervisor forks exactly targetCount worker
processes, each of which immediately loads the worker entry point; the
target is 1 in development and 2 in production in variant A, and the CPU
count in variant B; after start exactly targetCount worker handles are
recorded and the phase is running. -/
theorem c5_startup_forks_target (isDevelopment ok : Bool) (numCPUs : Nat) :
    (startA isDevelopment).1.workers.length = numWorkersA isDevelopment
  ∧ countAct isForkA (startA isDevelopment).2 = numWorkersA isDevelopment
  ∧ (startA isDevelopment).1.phase = Phase.running
  ∧ numWorkersA true = 1
  ∧ numWorkersA false = 2
  ∧ (startB numCPUs).1.workers.length = numCPUs
  ∧ countAct isForkA (startB numCPUs).2 = numCPUs
  ∧ (workerBranchA ok).head? = some (WAct.importServer workerEntryPoint)
  ∧ (workerBranchB ok).head? = some (WAct.importServer workerEntryPoint) := by
  obtain ⟨a1, a2, a3, a4, a5, a6⟩ :=
    forkN_spec (numWorkersA isDevelopment) initA
  obtain ⟨b1, b2⟩ := forkNB_spec numCPUs initB
  have hx : (startA isDevelopment).1.exitedWith = none := a4
  have hg : (startA isDevelopment).1.sigtermSeen = false := a3
  refine ⟨by simpa [initA] using a1, a6, ?_, rfl, rfl,
    by simpa [initB] using b1, b2, rfl, rfl⟩
  simp [StA.phase, hx, hg]

/-- Claim C1 (evaluation of the code at the failing input): variant A in
production, after SIGTERM is received (the derived phase is draining), a
worker exit still triggers a replacement fork — the exit handler of the
source tests only the environment, never any shutdown state.  The trace
of the run SIGTERM-then-worker-0-exit contains exactly one fork. -/
theorem c1_resurrection_during_drain :
    (runA false (startA false).1 [(0, Ev.sigterm)]).1.phase = Phase.draining
  ∧ (100, Act.forkW 2) ∈
      (runA false (startA false).1
        [(0, Ev.sigterm), (100, Ev.workerExit 0 1)]).2
  ∧ countAct isForkA
      (runA false (startA false).1
        [(0, Ev.sigterm), (100, Ev.workerExit 0 1)]).2 = 1 := by
  decide

/-- Claim C2 counterexample: variant A in development while the phase is
running — a worker exit produces no replacement fork at all (the trace is
empty) and the live count drops to 0, below the configured target 1. -/
theorem c2_dev_no_replacement :
    (startA true).1.phase = Phase.running
  ∧ (runA true (startA true).1 [(50, Ev.workerExit 0 1)]).2 = []
  ∧ (runA true (startA true).1 [(50, Ev.workerExit 0 1)]).1.workers.length = 0
  ∧ numWorkersA true = 1 := by
  decide

/-- Claim C2 (amended): the replacement policy is conditioned on the
environment, not on the phase.  In variant A a live-worker exit triggers
exactly one replacement fork if and only if the environment is not
development (and then the live count is restored); in development no
replacement is forked and the live count drops by one.  In variant B
every live-worker exit triggers exactly one replacement fork and the live
count is preserved. -/
theorem c2_replacement_policy (isDevelopment : Bool) (s : StA) (sB : StB)
    (t pid tB pidB : Nat) (code : Int)
    (hp : pid ∈ s.workers) (hx : s.exitedWith = none)
    (hpB : pidB ∈ sB.workers) :
    countAct isForkA (stepA isDevelopment s (t, Ev.workerExit pid code)).2 =
      (if isDevelopment then 0 else 1)
  ∧ (stepA isDevelopment s (t, Ev.workerExit pid code)).1.workers.length =
      (if isDevelopment then s.workers.length - 1 else s.workers.length)
  ∧ countAct isForkA (stepB sB (tB, pidB)).2 = 1
  ∧ (stepB sB (tB, pidB)).1.workers.length = sB.workers.length := by
  have hposB : 0 < sB.workers.length :=
    List.length_pos.mpr (List.ne_nil_of_mem hpB)
  have hpos : 0 < s.workers.length :=
    List.length_pos.mpr (List.ne_nil_of_mem hp)
  refine ⟨?_, ?_, ?_, ?_⟩
  · cases isDevelopment with
    | true =>
        rw [stepA_workerExit_dev s t pid code hx hp]
        simp [countAct]
    | false =>
        rw [stepA_workerExit_prod s t pid code hx hp]
        simp [countAct, List.countP_cons, isForkA]
  · cases isDevelopment with
    | true =>
        rw [stepA_workerExit_dev s t pid code hx hp]
        simpa using List.length_erase_of_mem hp
    | false =>
        rw [stepA_workerExit_prod s t pid code hx hp]
        show (s.workers.erase pid ++ [s.nextPid]).length = s.workers.length
        rw [List.length_append, List.length_erase_of_mem hp]
        simp
        omega
  · simp [stepB, hpB, countAct, List.countP_cons, isForkA]
  · simp only [stepB, hpB, if_true]
    show (sB.workers.erase pidB ++ [sB.nextPid]).length = sB.workers.length
    rw [List.length_append, List.length_erase_of_mem hpB]
    simp
    omega

/-- Witness for the amended C2 theorem at a concrete production state. -/
theorem c2_replacement_policy_witness :
    countAct isForkA
      (stepA false ⟨[3], 4, [], false, none⟩ (0, Ev.workerExit 3 2)).2 = 1 := by
  have h := c2_replacement_policy false ⟨[3], 4, [], false, none⟩ ⟨[7], 8⟩
    0 3 0 7 2 (by decide) rfl (by decide)
  simpa using h.1

/-- Claim C3 counterexample: a second SIGTERM received while draining is
not ignored — the still-live workers each receive a second graceful
signal and a second force-kill timer is scheduled. -/
theorem c3_second_sigterm_resignals :
    countAct (isTermKillTo 0)
      (runA false (startA false).1 [(0, Ev.sigterm), (1000, Ev.sigterm)]).2 = 2
  ∧ (runA false (startA false).1
      [(0, Ev.sigterm), (1000, Ev.sigterm)]).1.timers = [10000, 11000] := by
  decide

/-- Claim C3 (amended): the SIGTERM handler has no idempotence guard —
every termination signal received while the primary has not exited
re-runs the full broadcast, sending one more graceful signal to each
live worker and scheduling one more force-kill timer; the phase still
never regresses (it stays draining). -/
theorem c3_sigterm_rebroadcast (isDevelopment : Bool) (s : StA)
    (t1 t2 p : Nat) (hx : s.exitedWith = none) (hp : p ∈ s.workers)
    (hnd : s.workers.Nodup) :
    countAct (isTermKillTo p)
      (runA isDevelopment s [(t1, Ev.sigterm), (t2, Ev.sigterm)]).2 = 2
  ∧ (runA isDevelopment s [(t1, Ev.sigterm), (t2, Ev.sigterm)]).1.timers =
      s.timers ++ [t1 + drainTimeoutMs, t2 + drainTimeoutMs]
  ∧ (runA isDevelopment s [(t1, Ev.sigterm), (t2, Ev.sigterm)]).1.phase =
      Phase.draining := by
  have h1 := stepA_sigterm_eq isDevelopment s t1 hx
  have hx1 : (({ s with sigtermSeen := true,
                        timers := s.timers ++ [t1 + drainTimeoutMs] } :
      StA)).exitedWith = none := hx
  have h2 := stepA_sigterm_eq isDevelopment
    { s with sigtermSeen := true,
             timers := s.timers ++ [t1 + drainTimeoutMs] } t2 hx1
  have hcnt : s.workers.countP (fun q => q == p) = 1 :=
    countP_beq_of_nodup_mem p s.workers hnd hp
  refine ⟨?_, ?_, ?_⟩
  · simp only [runA, h1, h2]
    rw [countAct_append]
    simp only [List.append_nil]
    rw [countAct_map, countAct_map]
    simp only [isTermKillTo, beq_iff_eq]
    simp only [isTermKillTo] at hcnt ⊢
    omega
  · simp only [runA, h1, h2]
    simp
  · simp only [runA, h1, h2]
    simp [StA.phase, hx]

/-- Witness for the amended C3 theorem: two SIGTERMs to a primary with
two live workers double-signal worker 1. -/
theorem c3_sigterm_rebroadcast_witness :
    countAct (isTermKillTo 1)
      (runA false ⟨[0, 1], 2, [], false, none⟩
        [(0, Ev.sigterm), (5, Ev.sigterm)]).2 = 2 := by
  have h := c3_sigterm_rebroadcast false ⟨[0, 1], 2, [], false, none⟩ 0 5 1
    rfl (by decide) (by decide)
  exact h.1

/-- Claim C4 counterexample: variant A in development, SIGTERM at time 0
with the single worker exiting voluntarily at 2000 ms.  All workers are
gone at 2000 ms, yet the phase is still draining (not stopped), and the
only process exit in the full run happens at the timer fire at 10000 ms —
the drain timer is never canceled.  No forceful kill is sent. -/
theorem c4_stop_only_at_timeout :
    (runA true (startA true).1
      [(0, Ev.sigterm), (2000, Ev.workerExit 0 0)]).1.workers = []
  ∧ (runA true (startA true).1
      [(0, Ev.sigterm), (2000, Ev.workerExit 0 0)]).1.phase = Phase.draining
  ∧ ((runA true (startA true).1
      [(0, Ev.sigterm), (2000, Ev.workerExit 0 0),
       (10000, Ev.timerFire)]).2.filter (fun a => isProcExit a.2)) =
      [(10000, Act.procExit 0)]
  ∧ countAct isAnySigkill
      (runA true (startA true).1
        [(0, Ev.sigterm), (2000, Ev.workerExit 0 0),
         (10000, Ev.timerFire)]).2 = 0 := by
  decide

/-- Claim C4 (amended): after a single termination signal at time ts, if
every worker has exited voluntarily before the drain timer fires, then no
forceful kill signal is ever sent — but the supervisor does not stop when
the last worker exits: the phase is still draining after the exits, and
process.exit(0) happens only when the never-canceled timer fires at
ts plus the full drainTimeoutMs. -/
theorem c4_voluntary_drain (isDevelopment : Bool) (s : StA) (ts : Nat)
    (exits : List (Nat × Ev))
    (hx : s.exitedWith = none) (htm : s.timers = [])
    (hev : ∀ e ∈ exits, isWorkerExitEv e = true)
    (hempty : (runA isDevelopment s ((ts, Ev.sigterm) :: exits)).1.workers
      = []) :
    countAct isAnySigkill
      (runA isDevelopment s ((ts, Ev.sigterm) :: exits
        ++ [(ts + drainTimeoutMs, Ev.timerFire)])).2 = 0
  ∧ (ts + drainTimeoutMs, Act.procExit 0) ∈
      (runA isDevelopment s ((ts, Ev.sigterm) :: exits
        ++ [(ts + drainTimeoutMs, Ev.timerFire)])).2
  ∧ (runA isDevelopment s ((ts, Ev.sigterm) :: exits)).1.phase =
      Phase.draining := by
  have h1 := stepA_sigterm_eq isDevelopment s ts hx
  have hpre : runA isDevelopment s ((ts, Ev.sigterm) :: exits) =
      ((runA isDevelopment
          { s with sigtermSeen := true,
                   timers := s.timers ++ [ts + drainTimeoutMs] } exits).1,
       (s.workers.map fun p => (ts, Act.killW p Sig.sigterm)) ++
         (runA isDevelopment
           { s with sigtermSeen := true,
                    timers := s.timers ++ [ts + drainTimeoutMs] } exits).2)
      := by
    simp only [runA, h1]
  obtain ⟨g1, g2, g3, g4⟩ := runA_workerExits isDevelopment exits
    { s with sigtermSeen := true,
             timers := s.timers ++ [ts + drainTimeoutMs] } hev
  have hx2 : (runA isDevelopment
      { s with sigtermSeen := true,
               timers := s.timers ++ [ts + drainTimeoutMs] }
      exits).1.exitedWith = none := by
    rw [g3]; exact hx
  have ht2 : (runA isDevelopment
      { s with sigtermSeen := true,
               timers := s.timers ++ [ts + drainTimeoutMs] }
      exits).1.timers = [ts + drainTimeoutMs] := by
    rw [g1]
    show s.timers ++ [ts + drainTimeoutMs] = [ts + drainTimeoutMs]
    rw [htm]
    rfl
  have hg2 : (runA isDevelopment
      { s with sigtermSeen := true,
               timers := s.timers ++ [ts + drainTimeoutMs] }
      exits).1.sigtermSeen = true := g2
  have hw2 : (runA isDevelopment
      { s with sigtermSeen := true,
               timers := s.timers ++ [ts + drainTimeoutMs] }
      exits).1.workers = [] := by
    have := hempty
    rw [hpre] at this
    exact this
  have hmem : ts + drainTimeoutMs ∈ (runA isDevelopment
      { s with sigtermSeen := true,
               timers := s.timers ++ [ts + drainTimeoutMs] }
      exits).1.timers := by
    rw [ht2]; exact List.mem_singleton.mpr rfl
  have hfire := stepA_fire isDevelopment
    (runA isDevelopment
      { s with sigtermSeen := true,
               timers := s.timers ++ [ts + drainTimeoutMs] } exits).1
    (ts + drainTimeoutMs) hx2 hmem
  have hpre1 : (runA isDevelopment s ((ts, Ev.sigterm) :: exits)).1 =
      (runA isDevelopment
        { s with sigtermSeen := true,
                 timers := s.timers ++ [ts + drainTimeoutMs] } exits).1 := by
    rw [hpre]
  have hlastTrace : (runA isDevelopment
      (runA isDevelopment s ((ts, Ev.sigterm) :: exits)).1
      [(ts + drainTimeoutMs, Ev.timerFire)]).2 =
      [(ts + drainTimeoutMs, Act.procExit 0)] := by
    rw [hpre1]
    simp only [runA]
    rw [hfire]
    simp [hw2]
  have htr : (runA isDevelopment s ((ts, Ev.sigterm) :: exits
      ++ [(ts + drainTimeoutMs, Ev.timerFire)])).2 =
      (runA isDevelopment s ((ts, Ev.sigterm) :: exits)).2 ++
        [(ts + drainTimeoutMs, Act.procExit 0)] := by
    rw [runA_append, hlastTrace]
  have hpreSig : countAct isAnySigkill
      (runA isDevelopment s ((ts, Ev.sigterm) :: exits)).2 = 0 := by
    rw [hpre]
    show countAct isAnySigkill
      ((s.workers.map fun p => (ts, Act.killW p Sig.sigterm)) ++
        (runA isDevelopment
          { s with sigtermSeen := true,
                   timers := s.timers ++ [ts + drainTimeoutMs] } exits).2)
      = 0
    rw [countAct_append, countAct_map]
    have hz1 : s.workers.countP
        (fun q => isAnySigkill (Act.killW q Sig.sigterm)) = 0 := by
      simp [isAnySigkill]
    have hle := countAct_le isAnySigkill isAnyKill
      (fun a ha => by
        cases a with
        | killW q sg => simp [isAnyKill]
        | forkW q => simp [isAnySigkill] at ha
        | procExit c => simp [isAnySigkill] at ha)
      (runA isDevelopment
        { s with sigtermSeen := true,
                 timers := s.timers ++ [ts + drainTimeoutMs] } exits).2
    omega
  refine ⟨?_, ?_, ?_⟩
  · rw [htr, countAct_append, hpreSig]
    simp [countAct, isAnySigkill]
  · rw [htr]
    simp
  · rw [hpre1]
    simp [StA.phase, hx2, hg2]

/-- Witness for the amended C4 theorem: one development worker exits at
2000 ms; the process exit still happens at the full 10000 ms timeout. -/
theorem c4_voluntary_drain_witness :
    (0 + drainTimeoutMs, Act.procExit 0) ∈
      (runA true ⟨[0], 1, [], false, none⟩
        ((0, Ev.sigterm) :: [(2000, Ev.workerExit 0 0)]
          ++ [(0 + drainTimeoutMs, Ev.timerFire)])).2 := by
  have h := c4_voluntary_drain true ⟨[0], 1, [], false, none⟩ 0
    [(2000, Ev.workerExit 0 0)] rfl rfl (by decide) (by decide)
  exact h.2.1

/-- Claim C6: in a run of variant A with exactly one termination signal,
when the drain timer fires a worker that is still live at that moment
receives exactly one forceful kill signal — and a worker that is not
live then (already exited) receives none. -/
theorem c6_force_kill_exactly_once (isDevelopment : Bool)
    (pre post : List (Nat × Ev)) (tf p : Nat)
    (_hsig : ((pre ++ (tf, Ev.timerFire) :: post).countP isSigtermEv) = 1)
    (hx : (runA isDevelopment (startA isDevelopment).1 pre).1.exitedWith
      = none)
    (htm : tf ∈ (runA isDevelopment (startA isDevelopment).1 pre).1.timers) :
    countAct (isSigkillTo p)
      (runA isDevelopment (startA isDevelopment).1
        (pre ++ (tf, Ev.timerFire) :: post)).2 =
      (if p ∈ (runA isDevelopment (startA isDevelopment).1 pre).1.workers
       then 1 else 0) := by
  have hwf0 : WfA (startA isDevelopment).1 := by
    apply forkN_wf
    exact ⟨List.nodup_nil, by intro q hq; cases hq⟩
  have hwf2 : WfA (runA isDevelopment (startA isDevelopment).1 pre).1 :=
    wfA_runA isDevelopment (startA isDevelopment).1 pre hwf0
  have hfire := stepA_fire isDevelopment
    (runA isDevelopment (startA isDevelopment).1 pre).1 tf hx htm
  have hstep2 : (stepA isDevelopment
      (runA isDevelopment (startA isDevelopment).1 pre).1
      (tf, Ev.timerFire)).1.exitedWith = some 0 := by
    rw [hfire]
  have hpost : runA isDevelopment
      (stepA isDevelopment
        (runA isDevelopment (startA isDevelopment).1 pre).1
        (tf, Ev.timerFire)).1 post =
      ((stepA isDevelopment
        (runA isDevelopment (startA isDevelopment).1 pre).1
        (tf, Ev.timerFire)).1, []) :=
    runA_exited isDevelopment _ post (by rw [hstep2]; rfl)
  have hmid : runA isDevelopment
      (runA isDevelopment (startA isDevelopment).1 pre).1
      ((tf, Ev.timerFire) :: post) =
      ((stepA isDevelopment
         (runA isDevelopment (startA isDevelopment).1 pre).1
         (tf, Ev.timerFire)).1,
       (stepA isDevelopment
         (runA isDevelopment (startA isDevelopment).1 pre).1
         (tf, Ev.timerFire)).2 ++ []) := by
    simp only [runA]
    rw [hpost]
  have hpre0 : countAct (isSigkillTo p)
      (runA isDevelopment (startA isDevelopment).1 pre).2 = 0 := by
    have hfree := runA_sigkill_free isDevelopment (startA isDevelopment).1
      pre hx
    have hle := countAct_le (isSigkillTo p) isAnySigkill
      (fun a ha => by
        cases a with
        | killW q sg =>
            cases sg with
            | sigterm => simp [isSigkillTo] at ha
            | sigkill => simp [isAnySigkill]
        | forkW q => simp [isSigkillTo] at ha
        | procExit c => simp [isSigkillTo] at ha)
      (runA isDevelopment (startA isDevelopment).1 pre).2
    omega
  rw [runA_append, hmid, hfire]
  simp only [List.append_nil]
  rw [countAct_append, countAct_append, countAct_map, hpre0]
  simp only [isSigkillTo, countAct, List.countP_cons]
  by_cases hmem : p ∈ (runA isDevelopment (startA isDevelopment).1
      pre).1.workers
  · rw [countP_beq_of_nodup_mem p _ hwf2.1 hmem]
    simp [hmem]
  · rw [countP_beq_of_not_mem p _ hmem]
    simp [hmem]

/-- Witness for C6: production start, SIGTERM at 0, timer fires at
10000 with worker 0 still live — worker 0 receives exactly one SIGKILL. -/
theorem c6_force_kill_exactly_once_witness :
    countAct (isSigkillTo 0)
      (runA false (startA false).1
        ([(0, Ev.sigterm)] ++ (10000, Ev.timerFire) :: [])).2 =
      (if 0 ∈ (runA false (startA false).1 [(0, Ev.sigterm)]).1.workers
       then 1 else 0) :=
  c6_force_kill_exactly_once false [(0, Ev.sigterm)] [] 10000 0
    (by decide) (by decide) (by decide)

/-- Claim C7: the variant A supervisor exits with code 0 exactly on the
shutdown path — every process.exit the event machine can reach has code 0
and requires a termination signal in the run — and a startup fork
failure is fatal with exit code 1 (the uncaught-exception default) and is
never retried: the loop makes exactly i + 1 fork calls when the i-th call
is the first to fail. -/
theorem c7_exit_codes (isDevelopment : Bool) (evs : List (Nat × Ev))
    (forkOk : Nat → Bool) (n i c : Nat)
    (hex : (runA isDevelopment (startA isDevelopment).1 evs).1.exitedWith
      = some c)
    (hfail : forkOk i = false) (hprev : ∀ j, j < i → forkOk j = true)
    (hin : i < n) :
    c = 0
  ∧ evs.countP isSigtermEv ≠ 0
  ∧ forkLoopFallible forkOk 0 n = Except.error 1
  ∧ forkAttempts forkOk 0 n = i + 1 := by
  obtain ⟨a1, a2, a3, a4, a5, a6⟩ :=
    forkN_spec (numWorkersA isDevelopment) initA
  have hx0 : (startA isDevelopment).1.exitedWith = none := a4
  have ht0 : (startA isDevelopment).1.timers = [] := a2
  have hc0 : c = 0 := by
    have h := runA_exit_zero isDevelopment evs (startA isDevelopment).1
      (Or.inl hx0)
    rcases h with h | h
    · rw [hex] at h; cases h
    · rw [hex] at h
      exact (Option.some.injEq c 0).mp h
  have hsig : evs.countP isSigtermEv ≠ 0 := by
    intro hzero
    have hall : ∀ e ∈ evs, isSigtermEv e = false := by
      intro e he
      have h0 := List.countP_eq_zero.mp hzero e he
      cases h : isSigtermEv e with
      | true => exact absurd h h0
      | false => rfl
    obtain ⟨_, hnone⟩ :=
      runA_no_sigterm isDevelopment evs (startA isDevelopment).1 ht0 hx0 hall
    rw [hex] at hnone
    cases hnone
  obtain ⟨he1, he2⟩ := forkLoop_fail forkOk n 0 i (Nat.zero_le i)
    (by omega) hfail (fun j _ hj => hprev j hj)
  exact ⟨hc0, hsig, he1, by rw [he2]; omega⟩

/-- Witness for C7: a development run that drains to exit code 0, and a
fork primitive that fails on its first call with a loop of length 1. -/
theorem c7_exit_codes_witness :
    (0 : Nat) = 0
  ∧ [(0, Ev.sigterm), (10000, Ev.timerFire)].countP isSigtermEv ≠ 0
  ∧ forkLoopFallible (fun _ => false) 0 1 = Except.error 1
  ∧ forkAttempts (fun _ => false) 0 1 = 0 + 1 :=
  c7_exit_codes true [(0, Ev.sigterm), (10000, Ev.timerFire)]
    (fun _ => false) 1 0 0 (by decide) rfl
    (fun j hj => absurd hj (Nat.not_lt_zero j)) (by decide)

/-- Claim C8 counterexample: the exit-handler body of either variant has
no catch boundary — a failing log call makes the handler itself throw. -/
theorem c8_handler_propagates_log_failure :
    onExitBodyA false false true true true = Except.error ()
  ∧ onExitBodyA true false true true true = Except.error ()
  ∧ onExitBodyB false true = Except.error () :=
  ⟨rfl, rfl, rfl⟩

/-- Claim C8 (amended): the exit handler completes without throwing if
and only if every runtime call its body makes succeeds; any internal
error propagates out of the handler boundary, since the source wraps the
body in no try/catch. -/
theorem c8_no_catch_boundary (isDevelopment l1 l2 f1 l3 lb fb : Bool) :
    (onExitBodyA isDevelopment l1 l2 f1 l3 = Except.ok () ↔
      (l1 = true ∧ (isDevelopment = true ∨
        (l2 = true ∧ f1 = true ∧ l3 = true))))
  ∧ (onExitBodyB lb fb = Except.ok () ↔ (lb = true ∧ fb = true)) := by
  cases isDevelopment <;> cases l1 <;> cases l2 <;> cases f1 <;> cases l3 <;>
    cases lb <;> cases fb <;> simp [onExitBodyA, onExitBodyB]

/-- Claim C9: when loading the server module fails, the variant A worker
logs the error and exits with code 1 (so its supervisor observes an exit
event), while the variant B worker only logs the error and performs no
exit at all (so its supervisor never observes an exit for that failure).
Both workers load the same entry point first. -/
theorem c9_worker_import_failure :
    WAct.wexit 1 ∈ workerBranchA false
  ∧ WAct.logError ∈ workerBranchA false
  ∧ WAct.logError ∈ workerBranchB false
  ∧ (workerBranchB false).all (fun a => !(isWExit a)) = true
  ∧ (workerBranchA false).head? = some (WAct.importServer workerEntryPoint)
  ∧ (workerBranchB false).head? = some (WAct.importServer workerEntryPoint)
  := by
  decide

/-- Claim C10: the variant B primary registers no termination-signal
handler, no run of it ever sends any signal (graceful or forceful) to any
worker, and its only reaction to a live-worker exit is exactly one
replacement fork. -/
theorem c10_no_shutdown_path (sB : StB) (exits : List (Nat × Nat))
    (t pid : Nat) (hp : pid ∈ sB.workers) :
    signalHandlersB = []
  ∧ countAct isAnyKill (runB sB exits).2 = 0
  ∧ countAct isForkA (stepB sB (t, pid)).2 = 1 := by
  refine ⟨rfl, runB_no_kill exits sB, ?_⟩
  simp [stepB, hp, countAct, List.countP_cons, isForkA]

/-- Witness for C10 at a concrete one-worker state. -/
theorem c10_no_shutdown_path_witness :
    countAct isForkA (stepB ⟨[1], 2⟩ (0, 1)).2 = 1 :=
  (c10_no_shutdown_path ⟨[1], 2⟩ [] 0 1 (by decide)).2.2
